import Mathlib

/-!
Verification of the game-logic core of the simon-game-app backend.

The development shallowly embeds the backend's pure game-logic modules:
the Simon Says module (sequence generation, input validation, round
progression, elimination, winner resolution), the Color Race module
(round processing, scoring, winner determination) and the room-code
generator.  JavaScript string-keyed records are modelled as
insertion-ordered association lists (`List (String × V)`): enumeration
order of `Object.values`/`Object.keys`/`forEach` is insertion order,
assignment to an existing key keeps its position, assignment to a fresh
key appends.  The random number generator is modelled by threading the
produced random choices in as explicit parameters, so every function
stays pure and executable.
-/

namespace SimonApp

/-- The four colors available in both games (`COLORS` in the shared types). -/
inductive Color
  | red
  | blue
  | yellow
  | green
deriving DecidableEq, Repr

/-- All available colors, in source order. -/
def COLORS : List Color := [Color.red, Color.blue, Color.yellow, Color.green]

/-- JS record assignment `record[k] = v` on an insertion-ordered record:
replace the first binding of `k` in place, or append a fresh binding when
`k` is absent. -/
def setEntry {V : Type} : List (String × V) → String → V → List (String × V)
  | [], k, v => [(k, v)]
  | (k', v') :: rest, k, v =>
    if k' = k then (k, v) :: rest else (k', v') :: setEntry rest k v

-- =============================================================================
-- Shared platform types (players as the game modules see them)
-- =============================================================================

/-- A platform player; the game modules only ever read `id`. -/
structure Player where
  id : String
  displayName : String
  avatarId : String
  isHost : Bool
deriving DecidableEq, Repr

-- =============================================================================
-- Simon Says data model (shared game types module)
-- =============================================================================

/-- Simon Says game phases. -/
inductive SimonPhase
  | waiting
  | countdown
  | showing_sequence
  | player_input
  | round_result
  | elimination
  | finished
deriving DecidableEq, Repr

/-- Player status in Simon Says. -/
inductive SimonPlayerStatus
  | playing
  | eliminated
  | spectating
deriving DecidableEq, Repr

/-- Simon Says per-player state. -/
structure SimonPlayerState where
  playerId : String
  status : SimonPlayerStatus
  currentInputIndex : Nat
  eliminatedAtRound : Option Nat
deriving DecidableEq, Repr

/-- Simon Says game state (the `gameType` literal tag is omitted: it is the
constant `'simon'`). -/
structure SimonGameState where
  phase : SimonPhase
  sequence : List Color
  round : Nat
  playerStates : List (String × SimonPlayerState)
  currentShowingIndex : Nat
  timeoutMs : Nat
  winnerId : Option String
deriving DecidableEq, Repr

namespace SIMON_CONSTANTS

def INITIAL_SEQUENCE_LENGTH : Nat := 1

def SEQUENCE_INCREMENT : Nat := 1

def INITIAL_TIMEOUT_MS : Nat := 5000

def TIMEOUT_DECREMENT_MS : Nat := 250

def MIN_TIMEOUT_MS : Nat := 1500

end SIMON_CONSTANTS

-- =============================================================================
-- Simon Says game logic (simonLogic module)
-- =============================================================================

namespace Simon

/-- `generateSequence(length)`: `length` random colors; the random draws are
passed in as `picks`. -/
def generateSequence (length : Nat) (picks : Nat → Color) : List Color :=
  (List.range length).map picks

/-- `extendSequence(currentSequence)`: append one more random color `pick`
to the existing sequence (`[...currentSequence, COLORS[randomIndex]]`). -/
def extendSequence (currentSequence : List Color) (pick : Color) : List Color :=
  currentSequence ++ [pick]

/-- `initializeSimonGame(players)`: playing status and input index 0 for every
player, round-1 sequence of length `INITIAL_SEQUENCE_LENGTH`, 5000 ms timeout. -/
def initializeSimonGame (players : List Player) (picks : Nat → Color) : SimonGameState :=
  let playerStates := players.foldl
    (fun acc player => setEntry acc player.id
      { playerId := player.id
        status := SimonPlayerStatus.playing
        currentInputIndex := 0
        eliminatedAtRound := none }) []
  { phase := SimonPhase.showing_sequence
    sequence := generateSequence SIMON_CONSTANTS.INITIAL_SEQUENCE_LENGTH picks
    round := 1
    playerStates := playerStates
    currentShowingIndex := 0
    timeoutMs := SIMON_CONSTANTS.INITIAL_TIMEOUT_MS
    winnerId := none }

/-- `validateInput(gameState, playerId, color, inputIndex)`: false when the
player is unknown or the index is not the player's current input index,
otherwise compare the color against `sequence[inputIndex]` (an out-of-range
index reads `undefined` in JS and the comparison is false). -/
def validateInput (gameState : SimonGameState) (playerId : String) (color : Color)
    (inputIndex : Nat) : Bool :=
  match gameState.playerStates.lookup playerId with
  | none => false
  | some playerState =>
    if playerState.currentInputIndex ≠ inputIndex then
      false
    else
      match gameState.sequence[inputIndex]? with
      | some expectedColor => color == expectedColor
      | none => false

/-- `advanceToNextRound(gameState)` of the Simon module: extend the sequence by
one random color `pick`, bump the round, lower the timeout down to the floor,
reset every player's input index and re-enter `showing_sequence`. -/
def advanceToNextRound (gameState : SimonGameState) (pick : Color) : SimonGameState :=
  let newSequence := extendSequence gameState.sequence pick
  let newTimeout := max SIMON_CONSTANTS.MIN_TIMEOUT_MS
    (gameState.timeoutMs - SIMON_CONSTANTS.TIMEOUT_DECREMENT_MS)
  let updatedPlayerStates := gameState.playerStates.map
    (fun kv => (kv.1, { kv.2 with currentInputIndex := 0 }))
  { gameState with
      phase := SimonPhase.showing_sequence
      sequence := newSequence
      round := gameState.round + 1
      playerStates := updatedPlayerStates
      currentShowingIndex := 0
      timeoutMs := newTimeout }

/-- `eliminatePlayer(gameState, playerId, round)`: if the player exists, set
status `eliminated` and record the elimination round; otherwise no binding
changes. -/
def eliminatePlayer (gameState : SimonGameState) (playerId : String) (round : Nat) :
    SimonGameState :=
  let updatedPlayerStates :=
    match gameState.playerStates.lookup playerId with
    | some st => setEntry gameState.playerStates playerId
        { st with status := SimonPlayerStatus.eliminated, eliminatedAtRound := some round }
    | none => gameState.playerStates
  { gameState with playerStates := updatedPlayerStates }

/-- `shouldGameEnd(gameState)`: at most one player still has status `playing`. -/
def shouldGameEnd (gameState : SimonGameState) : Bool :=
  ((gameState.playerStates.map Prod.snd).filter
    (fun st => st.status == SimonPlayerStatus.playing)).length ≤ 1

/-- `getWinner(gameState)`: the unique still-playing player, or — when nobody
is playing — the fold that keeps the first player whose non-null
`eliminatedAtRound` strictly exceeds the running maximum (initially `-1`). -/
def getWinner (gameState : SimonGameState) : Option String :=
  let activePlayers := (gameState.playerStates.map Prod.snd).filter
    (fun st => st.status == SimonPlayerStatus.playing)
  if activePlayers.length = 1 then
    activePlayers.head?.map (fun st => st.playerId)
  else if activePlayers.length = 0 then
    ((gameState.playerStates.map Prod.snd).foldl
      (fun acc st =>
        match st.eliminatedAtRound with
        | some r => if (r : Int) > acc.1 then ((r : Int), some st.playerId) else acc
        | none => acc)
      ((-1 : Int), (none : Option String))).2
  else
    none

/-- `getActivePlayerCount(gameState)`. -/
def getActivePlayerCount (gameState : SimonGameState) : Nat :=
  ((gameState.playerStates.map Prod.snd).filter
    (fun st => st.status == SimonPlayerStatus.playing)).length

/-- `updatePlayerProgress(gameState, playerId)`: if the player exists, advance
their current input index by one; otherwise no binding changes. -/
def updatePlayerProgress (gameState : SimonGameState) (playerId : String) :
    SimonGameState :=
  let updatedPlayerStates :=
    match gameState.playerStates.lookup playerId with
    | some st => setEntry gameState.playerStates playerId
        { st with currentInputIndex := st.currentInputIndex + 1 }
    | none => gameState.playerStates
  { gameState with playerStates := updatedPlayerStates }

/-- The validated-input path of the game service: `updatePlayerProgress` is
applied exactly when `validateInput` accepts, otherwise the state is kept. -/
def handleValidatedInput (gameState : SimonGameState) (playerId : String) (color : Color)
    (inputIndex : Nat) : SimonGameState :=
  if validateInput gameState playerId color inputIndex then
    updatePlayerProgress gameState playerId
  else
    gameState

end Simon

-- =============================================================================
-- Color Race data model (shared game types module)
-- =============================================================================

/-- Color Race game phases. -/
inductive ColorRacePhase
  | waiting
  | countdown
  | showing_color
  | round_result
  | finished
deriving DecidableEq, Repr

/-- Color Race game state (the `gameType` literal tag is omitted: it is the
constant `'color_race'`). -/
structure ColorRaceGameState where
  phase : ColorRacePhase
  currentColor : Option Color
  round : Nat
  totalRounds : Nat
  scores : List (String × Nat)
  roundWinner : Option String
deriving DecidableEq, Repr

/-- A player's answer submission, with the server timestamp used for
tie-breaking. -/
structure PlayerAnswer where
  playerId : String
  color : Color
  timestamp : Nat
deriving DecidableEq, Repr

namespace COLOR_RACE_CONSTANTS

def TOTAL_ROUNDS : Nat := 5

def ROUND_RESULT_DELAY_MS : Nat := 2000

end COLOR_RACE_CONSTANTS

-- =============================================================================
-- Color Race game logic (colorRaceLogic module)
-- =============================================================================

namespace ColorRace

/-- `initializeColorRaceGame(players)`: score 0 for every player, round 1 of
`TOTAL_ROUNDS`, a first random color `pick`. -/
def initializeColorRaceGame (players : List Player) (pick : Color) : ColorRaceGameState :=
  let scores := players.foldl (fun acc player => setEntry acc player.id 0) []
  { phase := ColorRacePhase.showing_color
    currentColor := some pick
    round := 1
    totalRounds := COLOR_RACE_CONSTANTS.TOTAL_ROUNDS
    scores := scores
    roundWinner := none }

/-- `validateAnswer(gameState, answer)`. -/
def validateAnswer (gameState : ColorRaceGameState) (answer : PlayerAnswer) : Bool :=
  some answer.color == gameState.currentColor

/-- `advanceToNextRound(gameState, roundWinnerId)` of the Color Race module:
on the last round enter `finished` and clear the color, otherwise bump the
round and show the next random color `pick`. -/
def advanceToNextRound (gameState : ColorRaceGameState) (roundWinnerId : Option String)
    (pick : Color) : ColorRaceGameState :=
  if gameState.totalRounds ≤ gameState.round then
    { gameState with
        phase := ColorRacePhase.finished
        roundWinner := roundWinnerId
        currentColor := none }
  else
    { gameState with
        phase := ColorRacePhase.showing_color
        currentColor := some pick
        round := gameState.round + 1
        roundWinner := roundWinnerId }

/-- `processRound(gameState, answers)`: keep the answers matching the current
color; if any, the reduce keeps the strictly earliest of them (ties keep the
accumulator, i.e. the earlier answer in list order), awards it one point
(`(scores[id] || 0) + 1`) and advances with it as round winner. -/
def processRound (gameState : ColorRaceGameState) (answers : List PlayerAnswer)
    (pick : Color) : ColorRaceGameState :=
  let correctAnswers := answers.filter (fun answer => some answer.color == gameState.currentColor)
  match correctAnswers with
  | [] => advanceToNextRound gameState none pick
  | first :: rest =>
    let fastest := rest.foldl
      (fun prev current => if current.timestamp < prev.timestamp then current else prev) first
    let newScores := setEntry gameState.scores fastest.playerId
      (((gameState.scores.lookup fastest.playerId).getD 0) + 1)
    advanceToNextRound { gameState with scores := newScores } (some fastest.playerId) pick

/-- `determineWinner(gameState)`: `null` on an empty score record, otherwise
the fold that keeps the first player whose score strictly exceeds the running
maximum (initially `-1`), returned with that maximal score. -/
def determineWinner (gameState : ColorRaceGameState) : Option (String × Int) :=
  if gameState.scores.length = 0 then
    none
  else
    let result := gameState.scores.foldl
      (fun acc kv => if (kv.2 : Int) > acc.1 then ((kv.2 : Int), kv.1) else acc)
      ((-1 : Int), "")
    some (result.2, result.1)

end ColorRace

-- =============================================================================
-- Game code generation (gameCode utility module)
-- =============================================================================

namespace GameCode

/-- Characters used for game code generation; excludes the confusing
characters `0 O 1 I L`. -/
def GAME_CODE_CHARS : String := "ABCDEFGHJKMNPQRSTUVWXYZ23456789"

/-- Modelled from the spec: `PLATFORM_CONSTANTS.GAME_CODE_LENGTH` lives in the
shared platform-types module, which is not among the sources; the spec fixes
room codes at 6 characters. -/
def GAME_CODE_LENGTH : Nat := 6

/-- `generateRandomCode()`: `GAME_CODE_LENGTH` random indices into
`GAME_CODE_CHARS`; the random draws are passed in as `picks` (each draw is
`Math.floor(Math.random() * GAME_CODE_CHARS.length)`, hence below 31). -/
def generateRandomCode (picks : Nat → Nat) : String :=
  String.mk ((List.range GAME_CODE_LENGTH).map
    (fun i => GAME_CODE_CHARS.toList.getD (picks i) 'A'))

/-- The retry loop of `generateGameCode`, with the per-attempt random draws
passed in as `picks`; `none` models the thrown
`Failed to generate unique game code` error. -/
def generateGameCodeAux (existingCodes : List String) (picks : Nat → Nat → Nat) :
    Nat → Nat → Option String
  | _, 0 => none
  | attempt, remaining + 1 =>
    let code := generateRandomCode (picks attempt)
    if existingCodes.contains code then
      generateGameCodeAux existingCodes picks (attempt + 1) remaining
    else
      some code

/-- `generateGameCode(existingCodes, maxAttempts)`. -/
def generateGameCode (existingCodes : List String) (maxAttempts : Nat)
    (picks : Nat → Nat → Nat) : Option String :=
  generateGameCodeAux existingCodes picks 0 maxAttempts

end GameCode

-- =============================================================================
-- Reachability of Simon states
-- =============================================================================

/-- One mutation step of the Simon game service: player progress, player
elimination, or round advancement (with an arbitrary random color). -/
inductive SimonStep : SimonGameState → SimonGameState → Prop
  | progress (s : SimonGameState) (p : String) :
      SimonStep s (Simon.updatePlayerProgress s p)
  | eliminate (s : SimonGameState) (p : String) (r : Nat) :
      SimonStep s (Simon.eliminatePlayer s p r)
  | advance (s : SimonGameState) (pick : Color) :
      SimonStep s (Simon.advanceToNextRound s pick)

/-- States reachable from `initializeSimonGame` by any interleaving of
`updatePlayerProgress`, `eliminatePlayer` and `advanceToNextRound`. -/
inductive SimonReachable : SimonGameState → Prop
  | init (players : List Player) (picks : Nat → Color) :
      SimonReachable (Simon.initializeSimonGame players picks)
  | step (s s' : SimonGameState) :
      SimonReachable s → SimonStep s s' → SimonReachable s'

/-- States reachable from `initializeSimonGame` when `updatePlayerProgress`
is applied only after `validateInput` accepts. -/
inductive SimonReachableV : SimonGameState → Prop
  | init (players : List Player) (picks : Nat → Color) :
      SimonReachableV (Simon.initializeSimonGame players picks)
  | progress (s : SimonGameState) (p : String) (c : Color) (i : Nat) :
      SimonReachableV s → Simon.validateInput s p c i = true →
      SimonReachableV (Simon.updatePlayerProgress s p)
  | eliminate (s : SimonGameState) (p : String) (r : Nat) :
      SimonReachableV s → SimonReachableV (Simon.eliminatePlayer s p r)
  | advance (s : SimonGameState) (pick : Color) :
      SimonReachableV s → SimonReachableV (Simon.advanceToNextRound s pick)

-- =============================================================================
-- Concrete states used by the claim witnesses
-- =============================================================================

/-- Concrete instance of C1: a correct in-order submission is accepted. -/
def c1State : SimonGameState :=
  { phase := SimonPhase.player_input
    sequence := [Color.red, Color.blue]
    round := 2
    playerStates := [("p1",
      { playerId := "p1"
        status := SimonPlayerStatus.playing
        currentInputIndex := 1
        eliminatedAtRound := none })]
    currentShowingIndex := 0
    timeoutMs := 5000
    winnerId := none }

/-- Concrete instance of C10: eliminating or progressing the unknown player
`"p2"` leaves the one-player state untouched. -/
def c10State : SimonGameState :=
  { phase := SimonPhase.player_input
    sequence := [Color.red]
    round := 1
    playerStates := [("p1",
      { playerId := "p1"
        status := SimonPlayerStatus.playing
        currentInputIndex := 0
        eliminatedAtRound := none })]
    currentShowingIndex := 0
    timeoutMs := 5000
    winnerId := none }

/-- Concrete instance of C8: replaying the accepted submission
`("p1", red, 0)` is a no-op on the advanced state. -/
def c8State : SimonGameState :=
  { phase := SimonPhase.player_input
    sequence := [Color.red]
    round := 1
    playerStates := [("p1",
      { playerId := "p1"
        status := SimonPlayerStatus.playing
        currentInputIndex := 0
        eliminatedAtRound := none })]
    currentShowingIndex := 0
    timeoutMs := 5000
    winnerId := none }

/-- A state whose timeout already sits below the 1500 ms floor. -/
def c5SlowState : SimonGameState :=
  { phase := SimonPhase.player_input
    sequence := [Color.red]
    round := 1
    playerStates := []
    currentShowingIndex := 0
    timeoutMs := 1000
    winnerId := none }

/-- A state with the full 5000 ms initial timeout. -/
def c5SteadyState : SimonGameState :=
  { phase := SimonPhase.showing_sequence
    sequence := [Color.red, Color.blue]
    round := 2
    playerStates := [("p1",
      { playerId := "p1"
        status := SimonPlayerStatus.playing
        currentInputIndex := 2
        eliminatedAtRound := none })]
    currentShowingIndex := 0
    timeoutMs := 5000
    winnerId := none }

def c4Players : List Player :=
  [{ id := "p1", displayName := "Alice", avatarId := "1", isHost := true }]

def c4Picks : Nat → Color := fun _ => Color.red

def c9Players : List Player :=
  [{ id := "p1", displayName := "Alice", avatarId := "1", isHost := true }]

def c9Picks : Nat → Color := fun _ => Color.red

def c9Start : SimonGameState := Simon.initializeSimonGame c9Players c9Picks

def c9Next : SimonGameState := Simon.eliminatePlayer c9Start "p1" 1

def c9StBefore : SimonPlayerState :=
  { playerId := "p1"
    status := SimonPlayerStatus.playing
    currentInputIndex := 0
    eliminatedAtRound := none }

def c9StAfter : SimonPlayerState :=
  { playerId := "p1"
    status := SimonPlayerStatus.eliminated
    currentInputIndex := 0
    eliminatedAtRound := some 1 }

/-- The players carrying a non-null `eliminatedAtRound`, in enumeration
order, paired with that round (used to state the winner tie-break of the
spec). -/
def elimPairs : List SimonPlayerState → List (String × Nat)
  | [] => []
  | st :: tl =>
    match st.eliminatedAtRound with
    | some r => (st.playerId, r) :: elimPairs tl
    | none => elimPairs tl

/-- A finished Simon game in which both players were eliminated, `"p2"` last. -/
def c2State : SimonGameState :=
  { phase := SimonPhase.finished
    sequence := [Color.red, Color.blue]
    round := 2
    playerStates :=
      [("p1",
        { playerId := "p1"
          status := SimonPlayerStatus.eliminated
          currentInputIndex := 0
          eliminatedAtRound := some 1 }),
       ("p2",
        { playerId := "p2"
          status := SimonPlayerStatus.eliminated
          currentInputIndex := 1
          eliminatedAtRound := some 2 })]
    currentShowingIndex := 0
    timeoutMs := 5000
    winnerId := none }

/-- Scenario D of the spec: round 1 of 5 showing red, both players at 0. -/
def c3State : ColorRaceGameState :=
  { phase := ColorRacePhase.showing_color
    currentColor := some Color.red
    round := 1
    totalRounds := 5
    scores := [("p1", 0), ("p2", 0)]
    roundWinner := none }

/-- Scenario D answers: `p1` wrong at t=500, `p2` correct at t=1000. -/
def c3Answers : List PlayerAnswer :=
  [{ playerId := "p1", color := Color.blue, timestamp := 500 },
   { playerId := "p2", color := Color.red, timestamp := 1000 }]

/-- The only correct answer of Scenario D. -/
def c3Winner : PlayerAnswer :=
  { playerId := "p2", color := Color.red, timestamp := 1000 }

/-- A last-round Color Race state with `"p2"` strictly ahead. -/
def c6State : ColorRaceGameState :=
  { phase := ColorRacePhase.showing_color
    currentColor := some Color.red
    round := 5
    totalRounds := 5
    scores := [("p1", 2), ("p2", 3)]
    roundWinner := none }

-- =============================================================================
-- Record lookup lemmas
-- =============================================================================

/-- Unfold one step of `List.lookup` on a record. -/
theorem lookup_cons {V : Type} (a k : String) (b : V) (es : List (String × V)) :
    List.lookup a ((k, b) :: es) = if a = k then some b else List.lookup a es := by
  by_cases h : a = k
  · simp [List.lookup, h]
  · have hb : (a == k) = false := beq_eq_false_iff_ne.mpr h
    simp [List.lookup, hb, h]

/-- Looking up the key just written finds the new value. -/
theorem lookup_setEntry_self {V : Type} (l : List (String × V)) (k : String) (v : V) :
    (setEntry l k v).lookup k = some v := by
  induction l with
  | nil => simp [setEntry, lookup_cons]
  | cons hd tl ih =>
    obtain ⟨k', v'⟩ := hd
    by_cases h : k' = k
    · simp [setEntry, h, lookup_cons]
    · have h' : k ≠ k' := fun hh => h hh.symm
      simp [setEntry, h, lookup_cons, h', ih]

/-- Writing one key leaves lookups of every other key unchanged. -/
theorem lookup_setEntry_ne {V : Type} (l : List (String × V)) (k : String) (v : V)
    (k' : String) (h : k' ≠ k) : (setEntry l k v).lookup k' = l.lookup k' := by
  induction l with
  | nil => simp [setEntry, lookup_cons, h]
  | cons hd tl ih =>
    obtain ⟨k'', v''⟩ := hd
    by_cases hk : k'' = k
    · subst hk
      simp [setEntry, lookup_cons, h]
    · simp [setEntry, hk, lookup_cons, ih]

/-- Every binding of the written record is the new binding or an old one. -/
theorem mem_setEntry {V : Type} (l : List (String × V)) (k : String) (v : V)
    (kv : String × V) : kv ∈ setEntry l k v → kv = (k, v) ∨ kv ∈ l := by
  induction l with
  | nil =>
    intro h
    simp only [setEntry, List.mem_singleton] at h
    exact Or.inl h
  | cons hd tl ih =>
    obtain ⟨k', v'⟩ := hd
    by_cases hk : k' = k
    · intro h
      simp only [setEntry, if_pos hk] at h
      rcases List.mem_cons.mp h with h | h
      · exact Or.inl h
      · exact Or.inr (List.mem_cons_of_mem _ h)
    · intro h
      simp only [setEntry, if_neg hk] at h
      rcases List.mem_cons.mp h with h | h
      · exact Or.inr (List.mem_cons.mpr (Or.inl h))
      · rcases ih h with h' | h'
        · exact Or.inl h'
        · exact Or.inr (List.mem_cons_of_mem _ h')

/-- A successful lookup returns a binding of the record. -/
theorem lookup_mem {V : Type} (l : List (String × V)) (k : String) (v : V) :
    l.lookup k = some v → (k, v) ∈ l := by
  induction l with
  | nil => intro h; simp [List.lookup] at h
  | cons hd tl ih =>
    obtain ⟨k', v'⟩ := hd
    intro h
    rw [lookup_cons] at h
    by_cases hk : k = k'
    · rw [if_pos hk] at h
      subst hk
      simp [Option.some.injEq] at h
      simp [h]
    · rw [if_neg hk] at h
      exact List.mem_cons_of_mem _ (ih h)

/-- Lookup through a value-only map of a record. -/
theorem lookup_map_value {V W : Type} (f : V → W) (l : List (String × V)) (k : String) :
    (l.map (fun kv => (kv.1, f kv.2))).lookup k = (l.lookup k).map f := by
  induction l with
  | nil => simp [List.lookup]
  | cons hd tl ih =>
    obtain ⟨k', v'⟩ := hd
    by_cases hk : k = k'
    · simp [lookup_cons, hk]
    · simp [lookup_cons, hk, ih]

-- =============================================================================
-- Shared characterization lemmas
-- =============================================================================

/-- `validateInput` accepts exactly the submissions of a known player at that
player's current input index carrying the sequence color at that index. -/
theorem validateInput_true_iff (s : SimonGameState) (p : String) (c : Color) (i : Nat) :
    Simon.validateInput s p c i = true ↔
      ∃ st, s.playerStates.lookup p = some st
        ∧ st.currentInputIndex = i
        ∧ s.sequence[i]? = some c := by
  cases hlk : s.playerStates.lookup p with
  | none => simp [Simon.validateInput, hlk]
  | some st =>
    by_cases hidx : st.currentInputIndex = i
    · cases hseq : s.sequence[i]? with
      | none => simp [Simon.validateInput, hlk, hidx, hseq]
      | some e =>
        simp only [Simon.validateInput, hlk, hidx, hseq, beq_iff_eq, ite_not,
          Option.some.injEq, exists_eq_left', ne_eq, not_true_eq_false, if_false]
        exact ⟨fun h => ⟨trivial, h.symm⟩, fun h => h.2.symm⟩
    · simp [Simon.validateInput, hlk, hidx]

/-- `eliminatePlayer` on an unknown player changes nothing. -/
theorem eliminatePlayer_noop (s : SimonGameState) (p : String) (r : Nat)
    (h : s.playerStates.lookup p = none) : Simon.eliminatePlayer s p r = s := by
  simp [Simon.eliminatePlayer, h]

/-- `updatePlayerProgress` on an unknown player changes nothing. -/
theorem updatePlayerProgress_noop (s : SimonGameState) (p : String)
    (h : s.playerStates.lookup p = none) : Simon.updatePlayerProgress s p = s := by
  simp [Simon.updatePlayerProgress, h]

theorem updatePlayerProgress_sequence (s : SimonGameState) (p : String) :
    (Simon.updatePlayerProgress s p).sequence = s.sequence := rfl

theorem updatePlayerProgress_round (s : SimonGameState) (p : String) :
    (Simon.updatePlayerProgress s p).round = s.round := rfl

theorem eliminatePlayer_sequence (s : SimonGameState) (p : String) (r : Nat) :
    (Simon.eliminatePlayer s p r).sequence = s.sequence := rfl

theorem eliminatePlayer_round (s : SimonGameState) (p : String) (r : Nat) :
    (Simon.eliminatePlayer s p r).round = s.round := rfl

theorem advanceToNextRound_sequence (s : SimonGameState) (pick : Color) :
    (Simon.advanceToNextRound s pick).sequence = s.sequence ++ [pick] := rfl

theorem advanceToNextRound_round (s : SimonGameState) (pick : Color) :
    (Simon.advanceToNextRound s pick).round = s.round + 1 := rfl

theorem advanceToNextRound_playerStates (s : SimonGameState) (pick : Color) :
    (Simon.advanceToNextRound s pick).playerStates
      = s.playerStates.map (fun kv => (kv.1, { kv.2 with currentInputIndex := 0 })) := rfl

theorem advanceToNextRound_lookup (s : SimonGameState) (pick : Color) (p : String) :
    (Simon.advanceToNextRound s pick).playerStates.lookup p
      = (s.playerStates.lookup p).map (fun st => { st with currentInputIndex := 0 }) := by
  rw [advanceToNextRound_playerStates]
  exact lookup_map_value (fun st => { st with currentInputIndex := 0 }) s.playerStates p

theorem updatePlayerProgress_playerStates_some (s : SimonGameState) (p : String)
    (st : SimonPlayerState) (h : s.playerStates.lookup p = some st) :
    (Simon.updatePlayerProgress s p).playerStates
      = setEntry s.playerStates p { st with currentInputIndex := st.currentInputIndex + 1 } := by
  simp [Simon.updatePlayerProgress, h]

theorem eliminatePlayer_playerStates_some (s : SimonGameState) (p : String) (r : Nat)
    (st : SimonPlayerState) (h : s.playerStates.lookup p = some st) :
    (Simon.eliminatePlayer s p r).playerStates
      = setEntry s.playerStates p
          { st with status := SimonPlayerStatus.eliminated, eliminatedAtRound := some r } := by
  simp [Simon.eliminatePlayer, h]

/-- Every binding produced by the initialization fold is a fresh playing
player with input index 0. -/
theorem init_fold_fields (players : List Player) :
    ∀ acc : List (String × SimonPlayerState),
      (∀ kv ∈ acc, kv.2.status = SimonPlayerStatus.playing ∧ kv.2.currentInputIndex = 0) →
      ∀ kv ∈ players.foldl
        (fun acc player => setEntry acc player.id
          { playerId := player.id
            status := SimonPlayerStatus.playing
            currentInputIndex := 0
            eliminatedAtRound := none }) acc,
        kv.2.status = SimonPlayerStatus.playing ∧ kv.2.currentInputIndex = 0 := by
  induction players with
  | nil => intro acc hacc kv hkv; exact hacc kv hkv
  | cons pl tl ih =>
    intro acc hacc kv hkv
    simp only [List.foldl_cons] at hkv
    refine ih _ ?_ kv hkv
    intro kv' hkv'
    rcases mem_setEntry _ _ _ _ hkv' with h | h
    · rw [h]; exact ⟨rfl, rfl⟩
    · exact hacc kv' h

theorem initializeSimonGame_playerStates_fields (players : List Player) (picks : Nat → Color) :
    ∀ kv ∈ (Simon.initializeSimonGame players picks).playerStates,
      kv.2.status = SimonPlayerStatus.playing ∧ kv.2.currentInputIndex = 0 := by
  intro kv hkv
  exact init_fold_fields players [] (by intro kv' h; cases h) kv hkv

-- =============================================================================
-- C1 — validateInput acceptance condition
-- =============================================================================

/-- C1: for every `SimonGameState s`, player id `p`, color `c` and index `i`,
`validateInput(s, p, c, i)` returns true iff `p` is present in
`s.playerStates`, `i` equals that player's `currentInputIndex`, and `c`
equals `s.sequence[i]`; in particular it is false when `p` is absent or `i`
differs from the player's progress index. -/
theorem validateInput_accepts_iff (s : SimonGameState) (p : String) (c : Color) (i : Nat) :
    Simon.validateInput s p c i = true ↔
      ∃ st, s.playerStates.lookup p = some st
        ∧ st.currentInputIndex = i
        ∧ s.sequence[i]? = some c :=
  validateInput_true_iff s p c i

theorem validateInput_accepts_iff_witness :
    Simon.validateInput c1State "p1" Color.blue 1 = true :=
  (validateInput_accepts_iff c1State "p1" Color.blue 1).mpr
    ⟨{ playerId := "p1"
       status := SimonPlayerStatus.playing
       currentInputIndex := 1
       eliminatedAtRound := none }, by decide, rfl, rfl⟩

-- =============================================================================
-- C10 — operations on an unknown player are silent no-ops
-- =============================================================================

/-- C10: for a player id `p` absent from `s.playerStates`, both
`eliminatePlayer(s, p, r)` and `updatePlayerProgress(s, p)` return a state
equal to `s` in every field. -/
theorem unknown_player_noop (s : SimonGameState) (p : String) (r : Nat)
    (h : s.playerStates.lookup p = none) :
    Simon.eliminatePlayer s p r = s ∧ Simon.updatePlayerProgress s p = s :=
  ⟨eliminatePlayer_noop s p r h, updatePlayerProgress_noop s p h⟩

theorem unknown_player_noop_witness :
    Simon.eliminatePlayer c10State "p2" 3 = c10State
    ∧ Simon.updatePlayerProgress c10State "p2" = c10State :=
  unknown_player_noop c10State "p2" 3 (by decide)

-- =============================================================================
-- C8 — a second identical submission is rejected (idempotence)
-- =============================================================================

/-- C8: once a valid input `(p, c, i)` has been applied through
`updatePlayerProgress`, resubmitting the identical input is rejected by
`validateInput`, so the validated-input path leaves the advanced state
unchanged. -/
theorem duplicate_submission_noop (s : SimonGameState) (p : String) (c : Color) (i : Nat)
    (h : Simon.validateInput s p c i = true) :
    Simon.validateInput (Simon.updatePlayerProgress s p) p c i = false
    ∧ Simon.handleValidatedInput (Simon.updatePlayerProgress s p) p c i
        = Simon.updatePlayerProgress s p := by
  obtain ⟨st, hlk, hidx, hseq⟩ := (validateInput_true_iff s p c i).mp h
  have hlk' : (Simon.updatePlayerProgress s p).playerStates.lookup p
      = some { st with currentInputIndex := st.currentInputIndex + 1 } := by
    simp [Simon.updatePlayerProgress, hlk, lookup_setEntry_self]
  have hfalse : Simon.validateInput (Simon.updatePlayerProgress s p) p c i = false := by
    subst hidx
    simp [Simon.validateInput, hlk', Nat.succ_ne_self]
  exact ⟨hfalse, by simp [Simon.handleValidatedInput, hfalse]⟩

theorem duplicate_submission_noop_witness :
    Simon.validateInput (Simon.updatePlayerProgress c8State "p1") "p1" Color.red 0 = false
    ∧ Simon.handleValidatedInput (Simon.updatePlayerProgress c8State "p1") "p1" Color.red 0
        = Simon.updatePlayerProgress c8State "p1" :=
  duplicate_submission_noop c8State "p1" Color.red 0 (by decide)

-- =============================================================================
-- C5 — Simon round advancement (corrected)
-- =============================================================================

/-- C5 counterexample: the claim's "never larger than before" fails on a state
with `timeoutMs = 1000`: advancing yields `max(1500, 750) = 1500 > 1000`. -/
theorem advance_timeout_can_increase :
    ¬ ((Simon.advanceToNextRound c5SlowState Color.red).timeoutMs
        ≤ c5SlowState.timeoutMs) := by
  decide

/-- C5 (amended): advancing a Simon round appends exactly one color to the
sequence (the existing elements are kept), increments the round, sets
`timeoutMs = max(1500, timeoutMs − 250)` — which never goes below the floor,
and does not exceed the previous value provided the previous value was at
least the floor — resets every player's `currentInputIndex` to 0, and enters
`showing_sequence`. -/
theorem advance_round_spec_amended (s : SimonGameState) (pick : Color) :
    (Simon.advanceToNextRound s pick).sequence.length = s.sequence.length + 1
    ∧ (Simon.advanceToNextRound s pick).sequence.take s.sequence.length = s.sequence
    ∧ (Simon.advanceToNextRound s pick).round = s.round + 1
    ∧ (Simon.advanceToNextRound s pick).timeoutMs
        = max SIMON_CONSTANTS.MIN_TIMEOUT_MS
            (s.timeoutMs - SIMON_CONSTANTS.TIMEOUT_DECREMENT_MS)
    ∧ SIMON_CONSTANTS.MIN_TIMEOUT_MS ≤ (Simon.advanceToNextRound s pick).timeoutMs
    ∧ (SIMON_CONSTANTS.MIN_TIMEOUT_MS ≤ s.timeoutMs →
        (Simon.advanceToNextRound s pick).timeoutMs ≤ s.timeoutMs)
    ∧ (∀ kv ∈ (Simon.advanceToNextRound s pick).playerStates, kv.2.currentInputIndex = 0)
    ∧ (Simon.advanceToNextRound s pick).phase = SimonPhase.showing_sequence := by
  refine ⟨?_, ?_, rfl, rfl, ?_, ?_, ?_, rfl⟩
  · simp [Simon.advanceToNextRound, Simon.extendSequence]
  · simp [Simon.advanceToNextRound, Simon.extendSequence]
  · simp only [Simon.advanceToNextRound]
    exact le_max_left _ _
  · intro hle
    simp only [Simon.advanceToNextRound, SIMON_CONSTANTS.MIN_TIMEOUT_MS,
      SIMON_CONSTANTS.TIMEOUT_DECREMENT_MS] at *
    omega
  · intro kv hkv
    simp only [Simon.advanceToNextRound, List.mem_map] at hkv
    obtain ⟨kv', _, rfl⟩ := hkv
    rfl

theorem advance_round_spec_amended_witness :
    (Simon.advanceToNextRound c5SteadyState Color.green).timeoutMs
        ≤ c5SteadyState.timeoutMs
    ∧ (Simon.advanceToNextRound c5SteadyState Color.green).round = 3 := by
  have h := advance_round_spec_amended c5SteadyState Color.green
  exact ⟨h.2.2.2.2.2.1 (by decide), by rw [h.2.2.1]; rfl⟩

-- =============================================================================
-- C4 — sequence-length/round invariant over validated reachability
-- =============================================================================

/-- C4: every state reachable from `initializeSimonGame` by validated input
handling, eliminations and round advancements satisfies
`sequence.length = round`, and no player's `currentInputIndex` exceeds
`sequence.length`. -/
theorem simon_reachable_invariant (s : SimonGameState) (h : SimonReachableV s) :
    s.sequence.length = s.round
    ∧ ∀ kv ∈ s.playerStates, kv.2.currentInputIndex ≤ s.sequence.length := by
  induction h with
  | init players picks =>
    constructor
    · rfl
    · intro kv hkv
      rw [(initializeSimonGame_playerStates_fields players picks kv hkv).2]
      exact Nat.zero_le _
  | progress s p c i hs hv ih =>
    obtain ⟨st, hlk, hidx, hseq⟩ := (validateInput_true_iff s p c i).mp hv
    have hlen : i < s.sequence.length := by
      rw [List.getElem?_eq_some] at hseq
      exact hseq.1
    constructor
    · rw [updatePlayerProgress_sequence, updatePlayerProgress_round]
      exact ih.1
    · intro kv hkv
      rw [updatePlayerProgress_sequence]
      rw [updatePlayerProgress_playerStates_some s p st hlk] at hkv
      rcases mem_setEntry _ _ _ _ hkv with hkv' | hkv'
      · rw [hkv']
        show st.currentInputIndex + 1 ≤ s.sequence.length
        omega
      · exact ih.2 kv hkv'
  | eliminate s p r hs ih =>
    constructor
    · rw [eliminatePlayer_sequence, eliminatePlayer_round]
      exact ih.1
    · intro kv hkv
      rw [eliminatePlayer_sequence]
      cases hlk : s.playerStates.lookup p with
      | none =>
        rw [eliminatePlayer_noop s p r hlk] at hkv
        exact ih.2 kv hkv
      | some st =>
        rw [eliminatePlayer_playerStates_some s p r st hlk] at hkv
        rcases mem_setEntry _ _ _ _ hkv with hkv' | hkv'
        · rw [hkv']
          show st.currentInputIndex ≤ s.sequence.length
          exact ih.2 (p, st) (lookup_mem _ _ _ hlk)
        · exact ih.2 kv hkv'
  | advance s pick hs ih =>
    constructor
    · rw [advanceToNextRound_sequence, advanceToNextRound_round, List.length_append]
      simpa using ih.1
    · intro kv hkv
      rw [advanceToNextRound_playerStates] at hkv
      simp only [List.mem_map] at hkv
      obtain ⟨kv', _, rfl⟩ := hkv
      exact Nat.zero_le _

theorem simon_reachable_invariant_witness :
    (Simon.initializeSimonGame c4Players c4Picks).sequence.length
      = (Simon.initializeSimonGame c4Players c4Picks).round :=
  (simon_reachable_invariant _ (SimonReachableV.init c4Players c4Picks)).1

-- =============================================================================
-- C9 — player status never moves backward
-- =============================================================================

/-- On every reachable state, no player is ever `spectating` (no operation of
the Simon module produces that status). -/
theorem reachable_status_ne_spectating (s : SimonGameState) (h : SimonReachable s) :
    ∀ kv ∈ s.playerStates, kv.2.status ≠ SimonPlayerStatus.spectating := by
  induction h with
  | init players picks =>
    intro kv hkv
    rw [(initializeSimonGame_playerStates_fields players picks kv hkv).1]
    intro hcontra
    cases hcontra
  | step s s' hs hstep ih =>
    cases hstep with
    | progress p =>
      intro kv hkv
      cases hlk : s.playerStates.lookup p with
      | none =>
        rw [updatePlayerProgress_noop s p hlk] at hkv
        exact ih kv hkv
      | some st =>
        rw [updatePlayerProgress_playerStates_some s p st hlk] at hkv
        rcases mem_setEntry _ _ _ _ hkv with hkv' | hkv'
        · rw [hkv']
          exact ih (p, st) (lookup_mem _ _ _ hlk)
        · exact ih kv hkv'
    | eliminate p r =>
      intro kv hkv
      cases hlk : s.playerStates.lookup p with
      | none =>
        rw [eliminatePlayer_noop s p r hlk] at hkv
        exact ih kv hkv
      | some st =>
        rw [eliminatePlayer_playerStates_some s p r st hlk] at hkv
        rcases mem_setEntry _ _ _ _ hkv with hkv' | hkv'
        · rw [hkv']
          intro hcontra
          cases hcontra
        · exact ih kv hkv'
    | advance pick =>
      intro kv hkv
      rw [advanceToNextRound_playerStates] at hkv
      simp only [List.mem_map] at hkv
      obtain ⟨kv', hkv', rfl⟩ := hkv
      exact ih kv' hkv'

/-- C9: along any step taken from a reachable Simon state, a player's status
either stays what it was, or moves from `playing` to `eliminated` or
`spectating`; in particular a non-`playing` player never returns to
`playing`. -/
theorem status_transitions_monotone (s s' : SimonGameState)
    (hs : SimonReachable s) (hstep : SimonStep s s')
    (p : String) (st st' : SimonPlayerState)
    (h : s.playerStates.lookup p = some st)
    (h' : s'.playerStates.lookup p = some st') :
    (st'.status = st.status
      ∨ (st.status = SimonPlayerStatus.playing
          ∧ (st'.status = SimonPlayerStatus.eliminated
             ∨ st'.status = SimonPlayerStatus.spectating)))
    ∧ (st.status ≠ SimonPlayerStatus.playing → st'.status ≠ SimonPlayerStatus.playing) := by
  have hstatus : st'.status = st.status ∨
      (st'.status = SimonPlayerStatus.eliminated ∧ st.status ≠ SimonPlayerStatus.spectating) := by
    cases hstep with
    | progress q =>
      by_cases hq : p = q
      · subst hq
        rw [updatePlayerProgress_playerStates_some s p st h, lookup_setEntry_self] at h'
        rw [(Option.some.injEq _ _).mp h'.symm]
        exact Or.inl rfl
      · cases hlkq : s.playerStates.lookup q with
        | none =>
          rw [updatePlayerProgress_noop s q hlkq, h] at h'
          rw [(Option.some.injEq _ _).mp h'.symm]
          exact Or.inl rfl
        | some stq =>
          rw [updatePlayerProgress_playerStates_some s q stq hlkq,
            lookup_setEntry_ne _ _ _ _ hq, h] at h'
          rw [(Option.some.injEq _ _).mp h'.symm]
          exact Or.inl rfl
    | eliminate q r =>
      by_cases hq : p = q
      · subst hq
        rw [eliminatePlayer_playerStates_some s p r st h, lookup_setEntry_self] at h'
        rw [(Option.some.injEq _ _).mp h'.symm]
        exact Or.inr ⟨rfl, reachable_status_ne_spectating s hs (p, st) (lookup_mem _ _ _ h)⟩
      · cases hlkq : s.playerStates.lookup q with
        | none =>
          rw [eliminatePlayer_noop s q r hlkq, h] at h'
          rw [(Option.some.injEq _ _).mp h'.symm]
          exact Or.inl rfl
        | some stq =>
          rw [eliminatePlayer_playerStates_some s q r stq hlkq,
            lookup_setEntry_ne _ _ _ _ hq, h] at h'
          rw [(Option.some.injEq _ _).mp h'.symm]
          exact Or.inl rfl
    | advance pick =>
      rw [advanceToNextRound_lookup s pick p, h, Option.map_some'] at h'
      rw [(Option.some.injEq _ _).mp h'.symm]
      exact Or.inl rfl
  constructor
  · rcases hstatus with heq | ⟨helim, hnspec⟩
    · exact Or.inl heq
    · cases hcase : st.status with
      | playing => exact Or.inr ⟨rfl, Or.inl helim⟩
      | eliminated => exact Or.inl (by rw [helim])
      | spectating => exact absurd hcase hnspec
  · intro hne
    rcases hstatus with heq | ⟨helim, _⟩
    · rw [heq]; exact hne
    · rw [helim]; intro hcontra; cases hcontra

theorem status_transitions_monotone_witness :
    c9StAfter.status = c9StBefore.status
    ∨ (c9StBefore.status = SimonPlayerStatus.playing
        ∧ (c9StAfter.status = SimonPlayerStatus.eliminated
           ∨ c9StAfter.status = SimonPlayerStatus.spectating)) :=
  (status_transitions_monotone c9Start c9Next
    (SimonReachable.init c9Players c9Picks)
    (SimonStep.eliminate c9Start "p1" 1)
    "p1" c9StBefore c9StAfter (by decide) (by decide)).1

-- =============================================================================
-- First-best fold machinery (shared by the winner-resolution claims)
-- =============================================================================

/-- If an element is strictly better than everything before it and weakly
better than everything after it, the position of such an element in a list
is unique (`strict w a` reads: `a` is strictly worse than `w`). -/
theorem firstChoice_unique {α : Type} (strict weak : α → α → Prop)
    (hsw : ∀ x y, strict x y → weak y x → False) :
    ∀ (l1 : List α) (w : α) (l2 m1 : List α) (v : α) (m2 : List α),
      l1 ++ w :: l2 = m1 ++ v :: m2 →
      (∀ a ∈ l1, strict w a) → (∀ a ∈ l2, weak w a) →
      (∀ a ∈ m1, strict v a) → (∀ a ∈ m2, weak v a) →
      w = v := by
  intro l1
  induction l1 with
  | nil =>
    intro w l2 m1 v m2 heq hl1 hl2 hm1 hm2
    cases m1 with
    | nil =>
      simp only [List.nil_append] at heq
      injection heq with h1 h2
    | cons b u =>
      simp only [List.nil_append, List.cons_append] at heq
      injection heq with h1 h2
      have hv : v ∈ l2 := by
        rw [h2]
        exact List.mem_append_right _ (List.mem_cons_self _ _)
      have hsvw : strict v w := h1 ▸ hm1 b (List.mem_cons_self _ _)
      exact (hsw v w hsvw (hl2 v hv)).elim
  | cons a t ih =>
    intro w l2 m1 v m2 heq hl1 hl2 hm1 hm2
    cases m1 with
    | nil =>
      simp only [List.cons_append, List.nil_append] at heq
      injection heq with h1 h2
      have hw : w ∈ m2 := by
        rw [← h2]
        exact List.mem_append_right _ (List.mem_cons_self _ _)
      have hswv : strict w v := h1 ▸ hl1 a (List.mem_cons_self _ _)
      exact (hsw w v hswv (hm2 w hw)).elim
    | cons b u =>
      simp only [List.cons_append] at heq
      injection heq with h1 h2
      exact ih w l2 u v m2 h2
        (fun x hx => hl1 x (List.mem_cons_of_mem _ hx)) hl2
        (fun x hx => hm1 x (List.mem_cons_of_mem _ hx)) hm2

/-- The `reduce`-style strict-minimum fold lands on the first answer whose
timestamp is minimal: everything before it is strictly slower, everything
after it weakly slower. -/
theorem minFold_decomp :
    ∀ (rest : List PlayerAnswer) (first fa : PlayerAnswer),
      rest.foldl (fun prev current =>
        if current.timestamp < prev.timestamp then current else prev) first = fa →
      ∃ m1 m2, first :: rest = m1 ++ fa :: m2
        ∧ (∀ a ∈ m1, fa.timestamp < a.timestamp)
        ∧ (∀ a ∈ m2, fa.timestamp ≤ a.timestamp) := by
  intro rest
  induction rest with
  | nil =>
    intro first fa hfa
    simp only [List.foldl_nil] at hfa
    refine ⟨[], [], by rw [hfa, List.nil_append], ?_, ?_⟩
    · intro a ha; cases ha
    · intro a ha; cases ha
  | cons c cs ih =>
    intro first fa hfa
    simp only [List.foldl_cons] at hfa
    by_cases hc : c.timestamp < first.timestamp
    · rw [if_pos hc] at hfa
      obtain ⟨m1, m2, hdec, hm1, hm2⟩ := ih c fa hfa
      have hle : fa.timestamp ≤ c.timestamp := by
        cases m1 with
        | nil =>
          simp only [List.nil_append] at hdec
          injection hdec with h1 h2
          rw [← h1]
        | cons x xs =>
          simp only [List.cons_append] at hdec
          injection hdec with h1 h2
          exact le_of_lt (h1 ▸ hm1 x (List.mem_cons_self _ _))
      refine ⟨first :: m1, m2, ?_, ?_, hm2⟩
      · rw [List.cons_append, ← hdec]
      · intro a ha
        rcases List.mem_cons.mp ha with ha | ha
        · rw [ha]
          exact lt_of_le_of_lt hle hc
        · exact hm1 a ha
    · rw [if_neg hc] at hfa
      obtain ⟨m1, m2, hdec, hm1, hm2⟩ := ih first fa hfa
      cases m1 with
      | nil =>
        simp only [List.nil_append] at hdec
        injection hdec with h1 h2
        refine ⟨[], c :: cs, by rw [← h1, List.nil_append], ?_, ?_⟩
        · intro a ha; cases ha
        · intro a ha
          rcases List.mem_cons.mp ha with ha | ha
          · rw [ha, ← h1]
            exact Nat.le_of_not_lt hc
          · exact hm2 a (h2 ▸ ha)
      | cons x xs =>
        simp only [List.cons_append] at hdec
        injection hdec with h1 h2
        have hfirst : fa.timestamp < first.timestamp :=
          h1 ▸ hm1 x (List.mem_cons_self _ _)
        refine ⟨first :: c :: xs, m2, ?_, ?_, hm2⟩
        · simp only [List.cons_append]
          rw [h2]
        · intro a ha
          rcases List.mem_cons.mp ha with ha | ha
          · rw [ha]; exact hfirst
          · rcases List.mem_cons.mp ha with ha | ha
            · rw [ha]
              exact lt_of_lt_of_le hfirst (Nat.le_of_not_lt hc)
            · exact hm1 a (List.mem_cons_of_mem _ ha)

/-- The strict-maximum fold over score pairs lands on the first pair whose
value is maximal: everything before it is strictly smaller, everything after
it weakly smaller. -/
theorem maxFold_decomp :
    ∀ (rest : List (String × Nat)) (b fb : String × Nat),
      rest.foldl (fun acc kv => if kv.2 > acc.2 then kv else acc) b = fb →
      ∃ m1 m2, b :: rest = m1 ++ fb :: m2
        ∧ (∀ kv ∈ m1, kv.2 < fb.2)
        ∧ (∀ kv ∈ m2, kv.2 ≤ fb.2) := by
  intro rest
  induction rest with
  | nil =>
    intro b fb hfb
    simp only [List.foldl_nil] at hfb
    refine ⟨[], [], by rw [hfb, List.nil_append], ?_, ?_⟩
    · intro kv h; cases h
    · intro kv h; cases h
  | cons c cs ih =>
    intro b fb hfb
    simp only [List.foldl_cons] at hfb
    by_cases hc : c.2 > b.2
    · rw [if_pos hc] at hfb
      obtain ⟨m1, m2, hdec, hm1, hm2⟩ := ih c fb hfb
      have hge : c.2 ≤ fb.2 := by
        cases m1 with
        | nil =>
          simp only [List.nil_append] at hdec
          injection hdec with h1 h2
          rw [← h1]
        | cons x xs =>
          simp only [List.cons_append] at hdec
          injection hdec with h1 h2
          exact le_of_lt (h1 ▸ hm1 x (List.mem_cons_self _ _))
      refine ⟨b :: m1, m2, ?_, ?_, hm2⟩
      · rw [List.cons_append, ← hdec]
      · intro kv hkv
        rcases List.mem_cons.mp hkv with hkv | hkv
        · rw [hkv]
          exact lt_of_lt_of_le hc hge
        · exact hm1 kv hkv
    · rw [if_neg hc] at hfb
      obtain ⟨m1, m2, hdec, hm1, hm2⟩ := ih b fb hfb
      cases m1 with
      | nil =>
        simp only [List.nil_append] at hdec
        injection hdec with h1 h2
        refine ⟨[], c :: cs, by rw [← h1, List.nil_append], ?_, ?_⟩
        · intro kv hkv; cases hkv
        · intro kv hkv
          rcases List.mem_cons.mp hkv with hkv | hkv
          · rw [hkv, ← h1]
            exact Nat.le_of_not_lt hc
          · exact hm2 kv (h2 ▸ hkv)
      | cons x xs =>
        simp only [List.cons_append] at hdec
        injection hdec with h1 h2
        have hb : b.2 < fb.2 := h1 ▸ hm1 x (List.mem_cons_self _ _)
        refine ⟨b :: c :: xs, m2, ?_, ?_, hm2⟩
        · simp only [List.cons_append]
          rw [h2]
        · intro kv hkv
          rcases List.mem_cons.mp hkv with hkv | hkv
          · rw [hkv]; exact hb
          · rcases List.mem_cons.mp hkv with hkv | hkv
            · rw [hkv]
              exact lt_of_le_of_lt (Nat.le_of_not_lt hc) hb
            · exact hm1 kv (List.mem_cons_of_mem _ hkv)

/-- The source folds track the running maximum as an `Int` initialized to
`-1` together with an image of the current best pair; once seeded with an
actual pair they mirror the pure pair-valued maximum fold. -/
theorem intFold_eq_maxFold {α : Type} (f : String × Nat → α) :
    ∀ (l : List (String × Nat)) (b : String × Nat),
      l.foldl (fun acc kv => if (kv.2 : Int) > acc.1 then ((kv.2 : Int), f kv) else acc)
        ((b.2 : Int), f b)
      = (((l.foldl (fun acc kv => if kv.2 > acc.2 then kv else acc) b).2 : Int),
         f (l.foldl (fun acc kv => if kv.2 > acc.2 then kv else acc) b)) := by
  intro l
  induction l with
  | nil => intro b; rfl
  | cons kv tl ih =>
    intro b
    simp only [List.foldl_cons]
    by_cases h : kv.2 > b.2
    · have h' : (kv.2 : Int) > ((b.2 : Int), f b).1 := by
        simp only []
        exact_mod_cast h
      rw [if_pos h', if_pos h]
      exact ih kv
    · have h' : ¬ ((kv.2 : Int) > ((b.2 : Int), f b).1) := by
        simp only []
        exact_mod_cast h
      rw [if_neg h', if_neg h]
      exact ih b

/-- The `getWinner` fold over player states only consumes the eliminated
players' `(playerId, eliminatedAtRound)` pairs, in enumeration order. -/
theorem statesFold_eq_pairsFold :
    ∀ (l : List SimonPlayerState) (acc : Int × Option String),
      l.foldl (fun acc st =>
        match st.eliminatedAtRound with
        | some r => if (r : Int) > acc.1 then ((r : Int), some st.playerId) else acc
        | none => acc) acc
      = (elimPairs l).foldl
          (fun acc kv => if (kv.2 : Int) > acc.1 then ((kv.2 : Int), some kv.1) else acc)
          acc := by
  intro l
  induction l with
  | nil => intro acc; rfl
  | cons st tl ih =>
    intro acc
    cases hst : st.eliminatedAtRound with
    | none =>
      simp only [List.foldl_cons, elimPairs, hst]
      exact ih acc
    | some r =>
      simp only [List.foldl_cons, elimPairs, hst]
      exact ih _

/-- Seeding the `Int`-accumulated fold of `getWinner` with its `-1` start on a
nonempty pair list mirrors the pure pair-valued maximum fold. -/
theorem intFold_start (l : List (String × Nat)) (first : String × Nat) :
    List.foldl (fun acc kv => if (kv.2 : Int) > acc.1 then ((kv.2 : Int), some kv.1) else acc)
      ((-1 : Int), (none : Option String)) (first :: l)
    = (((l.foldl (fun acc kv => if kv.2 > acc.2 then kv else acc) first).2 : Int),
       some (l.foldl (fun acc kv => if kv.2 > acc.2 then kv else acc) first).1) := by
  rw [List.foldl_cons]
  have h1 : (if (first.2 : Int) > ((-1 : Int), (none : Option String)).1
      then ((first.2 : Int), some first.1) else ((-1 : Int), (none : Option String)))
      = ((first.2 : Int), some first.1) := by
    rw [if_pos]
    show ((-1 : Int), (none : Option String)).1 < (first.2 : Int)
    show (-1 : Int) < (first.2 : Int)
    omega
  rw [h1]
  exact intFold_eq_maxFold (fun kv => some kv.1) l first

/-- Same seeding fact for the `determineWinner` fold. -/
theorem intFold_start_str (l : List (String × Nat)) (first : String × Nat) :
    List.foldl (fun acc kv => if (kv.2 : Int) > acc.1 then ((kv.2 : Int), kv.1) else acc)
      ((-1 : Int), "") (first :: l)
    = (((l.foldl (fun acc kv => if kv.2 > acc.2 then kv else acc) first).2 : Int),
       (l.foldl (fun acc kv => if kv.2 > acc.2 then kv else acc) first).1) := by
  rw [List.foldl_cons]
  have h1 : (if (first.2 : Int) > ((-1 : Int), "").1
      then ((first.2 : Int), first.1) else ((-1 : Int), ""))
      = ((first.2 : Int), first.1) := by
    rw [if_pos]
    show ((-1 : Int), "").1 < (first.2 : Int)
    show (-1 : Int) < (first.2 : Int)
    omega
  rw [h1]
  exact intFold_eq_maxFold (fun kv => kv.1) l first

/-- With nobody left playing, `getWinner` is the last-eliminated fold over the
eliminated players' pairs. -/
theorem getWinner_no_playing (s : SimonGameState)
    (hempty : (s.playerStates.map Prod.snd).filter
      (fun st => st.status == SimonPlayerStatus.playing) = []) :
    Simon.getWinner s = ((elimPairs (s.playerStates.map Prod.snd)).foldl
      (fun acc kv => if (kv.2 : Int) > acc.1 then ((kv.2 : Int), some kv.1) else acc)
      ((-1 : Int), (none : Option String))).2 := by
  simp only [Simon.getWinner, hempty, List.length_nil]
  rw [if_neg (by omega), if_pos trivial, statesFold_eq_pairsFold]

-- =============================================================================
-- C2 — game end and winner resolution
-- =============================================================================

/-- C2: `shouldGameEnd` holds iff at most one player has status `playing`;
with exactly one playing player `getWinner` returns that player; with none,
`getWinner` returns the player with the strictly highest non-null
`eliminatedAtRound` — the first such player in enumeration order on an exact
tie — and `null` when no player carries an elimination round. -/
theorem gameEnd_winner_spec (s : SimonGameState) :
    (Simon.shouldGameEnd s = true ↔
      ((s.playerStates.map Prod.snd).filter
        (fun st => st.status == SimonPlayerStatus.playing)).length ≤ 1)
    ∧ (∀ stp, (s.playerStates.map Prod.snd).filter
          (fun st => st.status == SimonPlayerStatus.playing) = [stp] →
        Simon.getWinner s = some stp.playerId)
    ∧ ((s.playerStates.map Prod.snd).filter
          (fun st => st.status == SimonPlayerStatus.playing) = [] →
        (elimPairs (s.playerStates.map Prod.snd) = [] → Simon.getWinner s = none)
        ∧ (∀ l1 w l2, elimPairs (s.playerStates.map Prod.snd) = l1 ++ w :: l2 →
            (∀ kv ∈ l1, kv.2 < w.2) → (∀ kv ∈ l2, kv.2 ≤ w.2) →
            Simon.getWinner s = some w.1)) := by
  refine ⟨?_, ?_, ?_⟩
  · simp [Simon.shouldGameEnd]
  · intro stp hstp
    simp [Simon.getWinner, hstp]
  · intro hempty
    have key := getWinner_no_playing s hempty
    constructor
    · intro hep
      rw [key, hep]
      rfl
    · intro l1 w l2 hD hm1 hm2
      have hne : elimPairs (s.playerStates.map Prod.snd) ≠ [] := by
        rw [hD]
        cases l1 <;> simp
      obtain ⟨first, rest, hfr⟩ : ∃ f r,
          elimPairs (s.playerStates.map Prod.snd) = f :: r := by
        cases hE : elimPairs (s.playerStates.map Prod.snd) with
        | nil => exact absurd hE hne
        | cons f r => exact ⟨f, r, rfl⟩
      rw [key, hfr, intFold_start]
      obtain ⟨m1, m2, hdec, hmm1, hmm2⟩ := maxFold_decomp rest first _ rfl
      have hwv : w = rest.foldl (fun acc kv => if kv.2 > acc.2 then kv else acc) first :=
        firstChoice_unique (fun x y => y.2 < x.2) (fun x y => y.2 ≤ x.2)
          (by intro x y h1 h2; omega)
          l1 w l2 m1 _ m2 (by rw [← hD, hfr, hdec]) hm1 hm2 hmm1 hmm2
      rw [← hwv]

theorem gameEnd_winner_spec_witness :
    Simon.shouldGameEnd c2State = true ∧ Simon.getWinner c2State = some "p2" := by
  have h := gameEnd_winner_spec c2State
  refine ⟨h.1.mpr (by decide), ?_⟩
  have h3 := (h.2.2 (by decide)).2 [("p1", 1)] ("p2", 2) [] (by decide)
    (by
      intro kv hkv
      rw [List.mem_singleton] at hkv
      rw [hkv]
      decide)
    (by intro kv hkv; cases hkv)
  exact h3

-- =============================================================================
-- Color Race advancement helpers
-- =============================================================================

theorem crAdvance_roundWinner_scores (st : ColorRaceGameState) (winner : Option String)
    (pick : Color) :
    (ColorRace.advanceToNextRound st winner pick).roundWinner = winner
    ∧ (ColorRace.advanceToNextRound st winner pick).scores = st.scores := by
  by_cases h : st.totalRounds ≤ st.round
  · simp only [ColorRace.advanceToNextRound, if_pos h]
    exact ⟨trivial, trivial⟩
  · simp only [ColorRace.advanceToNextRound, if_neg h]
    exact ⟨trivial, trivial⟩

theorem crAdvance_last (st : ColorRaceGameState) (winner : Option String) (pick : Color)
    (h : st.totalRounds ≤ st.round) :
    (ColorRace.advanceToNextRound st winner pick).phase = ColorRacePhase.finished
    ∧ (ColorRace.advanceToNextRound st winner pick).currentColor = none := by
  simp only [ColorRace.advanceToNextRound, if_pos h]
  exact ⟨trivial, trivial⟩

theorem crAdvance_not_last (st : ColorRaceGameState) (winner : Option String) (pick : Color)
    (h : ¬ st.totalRounds ≤ st.round) :
    (ColorRace.advanceToNextRound st winner pick).round = st.round + 1
    ∧ (ColorRace.advanceToNextRound st winner pick).phase = ColorRacePhase.showing_color := by
  simp only [ColorRace.advanceToNextRound, if_neg h]
  exact ⟨trivial, trivial⟩

/-- `processRound` always delegates to `advanceToNextRound` on a state with
the same round counters. -/
theorem processRound_eq_advance (gs : ColorRaceGameState) (answers : List PlayerAnswer)
    (pick : Color) :
    ∃ st winner, ColorRace.processRound gs answers pick
        = ColorRace.advanceToNextRound st winner pick
      ∧ st.round = gs.round ∧ st.totalRounds = gs.totalRounds := by
  cases hf : answers.filter (fun answer => some answer.color == gs.currentColor) with
  | nil =>
    refine ⟨gs, none, ?_, rfl, rfl⟩
    simp only [ColorRace.processRound, hf]
  | cons first rest =>
    refine ⟨{ gs with scores :=
        (setEntry gs.scores
          (rest.foldl (fun prev current =>
            if current.timestamp < prev.timestamp then current else prev) first).playerId
          (((gs.scores.lookup (rest.foldl (fun prev current =>
            if current.timestamp < prev.timestamp then current else prev)
              first).playerId).getD 0) + 1)) },
      some (rest.foldl (fun prev current =>
        if current.timestamp < prev.timestamp then current else prev) first).playerId,
      ?_, rfl, rfl⟩
    simp only [ColorRace.processRound, hf]

-- =============================================================================
-- C3 — Color Race round scoring
-- =============================================================================

/-- C3: when the correct answers (the ones matching `currentColor`, wrong
colors being filtered out regardless of how early they arrived) decompose
around an answer `w` that is strictly earlier than every correct answer
before it in list order and weakly earlier than every one after it, then
`processRound` makes `w`'s player the round winner, adds exactly one point to
that player's score, and leaves every other player's score unchanged. -/
theorem processRound_awards_fastest_correct (gs : ColorRaceGameState)
    (answers : List PlayerAnswer) (pick : Color)
    (l1 : List PlayerAnswer) (w : PlayerAnswer) (l2 : List PlayerAnswer)
    (hsplit : answers.filter (fun answer => some answer.color == gs.currentColor)
        = l1 ++ w :: l2)
    (hbefore : ∀ a ∈ l1, w.timestamp < a.timestamp)
    (hafter : ∀ a ∈ l2, w.timestamp ≤ a.timestamp) :
    (ColorRace.processRound gs answers pick).roundWinner = some w.playerId
    ∧ (ColorRace.processRound gs answers pick).scores.lookup w.playerId
        = some (((gs.scores.lookup w.playerId).getD 0) + 1)
    ∧ ∀ q, q ≠ w.playerId →
        (ColorRace.processRound gs answers pick).scores.lookup q = gs.scores.lookup q := by
  have hne : answers.filter (fun answer => some answer.color == gs.currentColor) ≠ [] := by
    rw [hsplit]
    cases l1 <;> simp
  obtain ⟨first, rest, hfr⟩ : ∃ f r,
      answers.filter (fun answer => some answer.color == gs.currentColor) = f :: r := by
    cases hE : answers.filter (fun answer => some answer.color == gs.currentColor) with
    | nil => exact absurd hE hne
    | cons f r => exact ⟨f, r, rfl⟩
  obtain ⟨m1, m2, hdec, hm1, hm2⟩ := minFold_decomp rest first _ rfl
  have hwv : w = rest.foldl (fun prev current =>
      if current.timestamp < prev.timestamp then current else prev) first :=
    firstChoice_unique (fun x y => x.timestamp < y.timestamp)
      (fun x y => x.timestamp ≤ y.timestamp)
      (by intro x y h1 h2; omega)
      l1 w l2 m1 _ m2 (by rw [← hsplit, hfr, hdec]) hbefore hafter hm1 hm2
  refine ⟨?_, ?_, ?_⟩
  · simp only [ColorRace.processRound, hfr]
    rw [← hwv]
    exact (crAdvance_roundWinner_scores _ _ _).1
  · simp only [ColorRace.processRound, hfr]
    rw [← hwv, (crAdvance_roundWinner_scores _ _ _).2]
    exact lookup_setEntry_self _ _ _
  · intro q hq
    simp only [ColorRace.processRound, hfr]
    rw [← hwv, (crAdvance_roundWinner_scores _ _ _).2]
    exact lookup_setEntry_ne _ _ _ _ hq

theorem processRound_awards_fastest_correct_witness :
    (ColorRace.processRound c3State c3Answers Color.green).roundWinner = some "p2"
    ∧ (ColorRace.processRound c3State c3Answers Color.green).scores.lookup "p2" = some 1
    ∧ (ColorRace.processRound c3State c3Answers Color.green).scores.lookup "p1"
        = c3State.scores.lookup "p1" := by
  have h := processRound_awards_fastest_correct c3State c3Answers Color.green
    [] c3Winner [] (by decide)
    (by intro a ha; cases ha)
    (by intro a ha; cases ha)
  exact ⟨h.1, h.2.1, h.2.2 "p1" (by decide)⟩

-- =============================================================================
-- C6 — Color Race completion and winner determination
-- =============================================================================

/-- C6: `processRound` finishes the game (phase `finished`, color cleared)
exactly on rounds `round ≥ totalRounds`, and otherwise moves to round
`round + 1` in phase `showing_color`; `determineWinner` returns `null` on an
empty score record and otherwise the first player in enumeration order
holding the maximal score, together with that score. -/
theorem colorRace_completion_winner_spec (gs : ColorRaceGameState)
    (answers : List PlayerAnswer) (pick : Color) :
    (gs.totalRounds ≤ gs.round →
      (ColorRace.processRound gs answers pick).phase = ColorRacePhase.finished
      ∧ (ColorRace.processRound gs answers pick).currentColor = none)
    ∧ (gs.round < gs.totalRounds →
      (ColorRace.processRound gs answers pick).round = gs.round + 1
      ∧ (ColorRace.processRound gs answers pick).phase = ColorRacePhase.showing_color)
    ∧ (gs.scores = [] → ColorRace.determineWinner gs = none)
    ∧ (∀ l1 w l2, gs.scores = l1 ++ w :: l2 →
        (∀ kv ∈ l1, kv.2 < w.2) → (∀ kv ∈ l2, kv.2 ≤ w.2) →
        ColorRace.determineWinner gs = some (w.1, (w.2 : Int))) := by
  obtain ⟨st, winner, heq, hr, ht⟩ := processRound_eq_advance gs answers pick
  refine ⟨?_, ?_, ?_, ?_⟩
  · intro hlast
    rw [heq]
    exact crAdvance_last st winner pick (by rw [hr, ht]; exact hlast)
  · intro hnot
    rw [heq]
    have h' := crAdvance_not_last st winner pick (by rw [hr, ht]; omega)
    rw [hr] at h'
    exact h'
  · intro hsc
    simp [ColorRace.determineWinner, hsc]
  · intro l1 w l2 hD hm1 hm2
    have hne : gs.scores ≠ [] := by
      rw [hD]
      cases l1 <;> simp
    obtain ⟨first, rest, hfr⟩ : ∃ f r, gs.scores = f :: r := by
      cases hE : gs.scores with
      | nil => exact absurd hE hne
      | cons f r => exact ⟨f, r, rfl⟩
    have hlen : ¬ (gs.scores.length = 0) := by
      rw [hfr]
      simp
    simp only [ColorRace.determineWinner, if_neg hlen]
    rw [hfr, intFold_start_str]
    obtain ⟨m1, m2, hdec, hmm1, hmm2⟩ := maxFold_decomp rest first _ rfl
    have hwv : w = rest.foldl (fun acc kv => if kv.2 > acc.2 then kv else acc) first :=
      firstChoice_unique (fun x y => y.2 < x.2) (fun x y => y.2 ≤ x.2)
        (by intro x y h1 h2; omega)
        l1 w l2 m1 _ m2 (by rw [← hD, hfr, hdec]) hm1 hm2 hmm1 hmm2
    rw [← hwv]

theorem colorRace_completion_winner_spec_witness :
    (ColorRace.processRound c6State [] Color.red).phase = ColorRacePhase.finished
    ∧ ColorRace.determineWinner c6State = some ("p2", (3 : Int)) := by
  have h := colorRace_completion_winner_spec c6State [] Color.red
  refine ⟨(h.1 (by decide)).1, ?_⟩
  have h4 := h.2.2.2 [("p1", 2)] ("p2", 3) [] (by decide)
    (by
      intro kv hkv
      rw [List.mem_singleton] at hkv
      rw [hkv]
      decide)
    (by intro kv hkv; cases hkv)
  exact h4

-- =============================================================================
-- C7 — game code generation
-- =============================================================================

/-- Any single generated code has the advertised length and draws every
character from the restricted alphabet. -/
theorem generateRandomCode_spec (pk : Nat → Nat) (hpk : ∀ i, pk i < 31) :
    (GameCode.generateRandomCode pk).length = GameCode.GAME_CODE_LENGTH
    ∧ (GameCode.generateRandomCode pk).toList.all
        (fun ch => GameCode.GAME_CODE_CHARS.toList.contains ch) = true := by
  constructor
  · show ((List.range GameCode.GAME_CODE_LENGTH).map
      (fun i => GameCode.GAME_CODE_CHARS.toList.getD (pk i) 'A')).length
        = GameCode.GAME_CODE_LENGTH
    rw [List.length_map, List.length_range]
  · show ((List.range GameCode.GAME_CODE_LENGTH).map
      (fun i => GameCode.GAME_CODE_CHARS.toList.getD (pk i) 'A')).all
        (fun ch => GameCode.GAME_CODE_CHARS.toList.contains ch) = true
    rw [List.all_eq_true]
    intro ch hch
    rw [List.mem_map] at hch
    obtain ⟨i, _, rfl⟩ := hch
    have hlt : pk i < GameCode.GAME_CODE_CHARS.toList.length := by
      have h1 := hpk i
      have h2 : GameCode.GAME_CODE_CHARS.toList.length = 31 := rfl
      omega
    rw [List.getD_eq_getElem _ _ hlt]
    exact List.elem_eq_true_of_mem (List.getElem_mem hlt)

/-- A successful retry loop returns one of the per-attempt codes, and never a
colliding one. -/
theorem generateGameCodeAux_some (existingCodes : List String) (picks : Nat → Nat → Nat) :
    ∀ (fuel start : Nat) (code : String),
      GameCode.generateGameCodeAux existingCodes picks start fuel = some code →
      (∃ a, code = GameCode.generateRandomCode (picks a)) ∧ code ∉ existingCodes := by
  intro fuel
  induction fuel with
  | zero =>
    intro start code h
    simp [GameCode.generateGameCodeAux] at h
  | succ n ih =>
    intro start code h
    simp only [GameCode.generateGameCodeAux] at h
    cases hc : existingCodes.contains (GameCode.generateRandomCode (picks start)) with
    | true =>
      rw [hc, if_pos rfl] at h
      exact ih (start + 1) code h
    | false =>
      rw [hc, if_neg (by simp)] at h
      injection h with heq
      refine ⟨⟨start, heq.symm⟩, ?_⟩
      rw [← heq]
      simp at hc
      exact hc

/-- The retry loop throws exactly when every attempted code collides. -/
theorem generateGameCodeAux_none (existingCodes : List String) (picks : Nat → Nat → Nat) :
    ∀ (fuel start : Nat),
      GameCode.generateGameCodeAux existingCodes picks start fuel = none ↔
      ∀ j < fuel, GameCode.generateRandomCode (picks (start + j)) ∈ existingCodes := by
  intro fuel
  induction fuel with
  | zero =>
    intro start
    simp [GameCode.generateGameCodeAux]
  | succ n ih =>
    intro start
    simp only [GameCode.generateGameCodeAux]
    cases hc : existingCodes.contains (GameCode.generateRandomCode (picks start)) with
    | true =>
      rw [if_pos rfl, ih (start + 1)]
      constructor
      · intro hall j hj
        cases j with
        | zero =>
          rw [Nat.add_zero]
          simp at hc
          exact hc
        | succ k =>
          have hk := hall k (by omega)
          rw [show start + (k + 1) = start + 1 + k by omega]
          exact hk
      · intro hall j hj
        have hk := hall (j + 1) (by omega)
        rw [show start + 1 + j = start + (j + 1) by omega]
        exact hk
    | false =>
      rw [if_neg (by simp)]
      constructor
      · intro h
        simp at h
      · intro hall
        exfalso
        have h0 := hall 0 (by omega)
        rw [Nat.add_zero] at h0
        simp at hc
        exact hc h0

/-- C7: whenever `generateGameCode` returns a code, that code has exactly
`GAME_CODE_LENGTH` (6) characters, each from the restricted uppercase
alphabet excluding `0 O 1 I L`, and it is absent from the existing-code set;
it fails (throws) exactly when all attempts up to the bound collide. -/
theorem generateGameCode_spec (existingCodes : List String) (maxAttempts : Nat)
    (picks : Nat → Nat → Nat) (hpicks : ∀ a i, picks a i < 31) :
    (∀ code, GameCode.generateGameCode existingCodes maxAttempts picks = some code →
      code.length = GameCode.GAME_CODE_LENGTH
      ∧ code.toList.all (fun ch => GameCode.GAME_CODE_CHARS.toList.contains ch) = true
      ∧ code ∉ existingCodes)
    ∧ (GameCode.generateGameCode existingCodes maxAttempts picks = none ↔
        ∀ a < maxAttempts, GameCode.generateRandomCode (picks a) ∈ existingCodes) := by
  constructor
  · intro code hcode
    obtain ⟨⟨a, ha⟩, hnot⟩ :=
      generateGameCodeAux_some existingCodes picks maxAttempts 0 code hcode
    have hspec := generateRandomCode_spec (picks a) (hpicks a)
    rw [ha]
    exact ⟨hspec.1, hspec.2, ha ▸ hnot⟩
  · constructor
    · intro hnone a ha
      have h2 := (generateGameCodeAux_none existingCodes picks maxAttempts 0).mp hnone a ha
      rwa [Nat.zero_add] at h2
    · intro hall
      apply (generateGameCodeAux_none existingCodes picks maxAttempts 0).mpr
      intro j hj
      rw [Nat.zero_add]
      exact hall j hj

theorem generateGameCode_spec_witness :
    "AAAAAA".length = GameCode.GAME_CODE_LENGTH ∧ "AAAAAA" ∉ ([] : List String) := by
  have h := (generateGameCode_spec [] 1 (fun _ _ => 0) (fun _ _ => Nat.succ_pos 30)).1
    "AAAAAA" (by decide)
  exact ⟨h.1, h.2.2⟩

end SimonApp
